import Mathlib

/-!
Verification of the parsing and metrics core of `dashboard.py` (personal-finance
reporting dashboard).  The Python source is shallowly embedded: spreadsheet grids
are lists of rows of strings, pandas tables become lists of records, numeric
cells are parsed into `ℚ`, and each parser/metric is a pure Lean function that
mirrors the corresponding Python function line by line.
-/

namespace Dashboard

/-- A raw spreadsheet grid: rows of text cells, as handed over by the external
sheet source (`worksheet.get_all_values()`). -/
abbrev Grid := List (List String)

/-- ASCII whitespace test, modelling the whitespace class used by Python's
`str.strip()` and the regex class `\s` on the data that occurs in the sheets. -/
def isWsChar (c : Char) : Bool := c = ' ' || c = '\t' || c = '\n' || c = '\r'

/-- Python `str.strip()` on a character list: drop whitespace from both ends. -/
def trimChars (l : List Char) : List Char :=
  ((l.dropWhile isWsChar).reverse.dropWhile isWsChar).reverse

/-- Python `str.strip()`. -/
def strTrim (s : String) : String := ⟨trimChars s.data⟩

/-- ASCII uppercase of one character (the sheet data is ASCII). -/
def upChar (c : Char) : Char :=
  if 'a' ≤ c && c ≤ 'z' then Char.ofNat (c.toNat - 32) else c

/-- Python `str.upper()`. -/
def strUpper (s : String) : String := ⟨s.data.map upChar⟩

/-- Does `p` occur as a contiguous run inside `l`?  (Python's `in` on strings.) -/
def subAt (p : List Char) : List Char → Bool
  | [] => p.isEmpty
  | c :: t => p.isPrefixOf (c :: t) || subAt p t

/-- `containsSub s pat`: Python `pat in s`. -/
def containsSub (s pat : String) : Bool := subAt pat.data s.data

/-- Python `str.replace(",", "")`. -/
def stripCommas (s : String) : String := ⟨s.data.filter (fun c => !(c == ','))⟩

/-- Decimal digit test. -/
def isDigitChar (c : Char) : Bool := '0' ≤ c && c ≤ '9'

/-- Accumulate one decimal digit. -/
def digitValAux (a : Nat) (c : Char) : Nat := 10 * a + (c.toNat - 48)

/-- Value of a run of decimal digits. -/
def digitsVal (l : List Char) : Nat := l.foldl digitValAux 0

/-- Model of `pd.to_numeric(s, errors="coerce")` on a single cell string: an
optional sign followed by decimal digits with an optional fractional part
(surrounding whitespace tolerated); anything else coerces to NaN, i.e. `none`.
Exotic float spellings (exponents, `inf`) do not occur in the sheets and are
treated as unparsable. -/
def parseDecimal (s : String) : Option ℚ :=
  let l0 := trimChars s.data
  let neg : Bool := match l0 with | '-' :: _ => true | _ => false
  let l : List Char := match l0 with
    | '-' :: t => t
    | '+' :: t => t
    | _ => l0
  let ip := l.takeWhile (fun c => !(c == '.'))
  let fp := (l.dropWhile (fun c => !(c == '.'))).drop 1
  if ip.all isDigitChar && fp.all isDigitChar && !(ip.isEmpty && fp.isEmpty) then
    let mag : ℚ := (digitsVal ip : ℚ) + (digitsVal fp : ℚ) / ((10 : ℚ) ^ fp.length)
    some (if neg then -mag else mag)
  else none

/-- The numeric-cell pipeline every parser uses:
`pd.to_numeric(cell.astype(str).str.replace(",", ""), errors="coerce")`. -/
def parseAmount (s : String) : Option ℚ := parseDecimal (stripCommas s)

/-- One decimal digit as a character. -/
def digitChar10 : Nat → Char
  | 0 => '0' | 1 => '1' | 2 => '2' | 3 => '3' | 4 => '4'
  | 5 => '5' | 6 => '6' | 7 => '7' | 8 => '8' | _ => '9'

/-- Decimal digits of a natural number, most significant first.  Structural
in `fuel`; the `0` case is reached only with `n = 0` when the fuel starts at
`n` (division by 10 shrinks faster than the fuel). -/
def natDigitsFuel : Nat → Nat → List Char
  | 0, n => [digitChar10 n]
  | fuel + 1, n =>
    if n < 10 then [digitChar10 n]
    else natDigitsFuel fuel (n / 10) ++ [digitChar10 (n % 10)]

/-- Decimal digits of a natural number, most significant first. -/
def natDigits (n : Nat) : List Char := natDigitsFuel n n

/-- Decimal rendering of a natural number, modelling the Python f-string
interpolation `f"{original_col_name}_{count}"` of the counter. -/
def natStr (n : Nat) : String := ⟨natDigits n⟩

/-- The `while current_col_name in unique_list` loop of
`make_unique_column_names`: starting from candidate `current` at counter
`count`, bump the counter and retry `original_count` until the candidate is
fresh.  The loop always exits within `uniques.length + 1` rounds (the
candidates are pairwise distinct strings), so the fuel below never runs out. -/
def searchLoop (original : String) (uniques : List String) :
    Nat → Nat → String → String × Nat
  | 0, count, current => (current, count)
  | fuel + 1, count, current =>
    if current ∈ uniques then
      searchLoop original uniques fuel (count + 1) (original ++ "_" ++ natStr (count + 1))
    else (current, count)

/-- One iteration of the `for col in column_list` body of
`make_unique_column_names`: state is the `seen` counter map and the
`unique_list` accumulated so far. -/
def makeUniqueStep (st : (String → Nat) × List String) (col : String) :
    (String → Nat) × List String :=
  let original := strTrim col
  let r := searchLoop original st.2 (st.2.length + 1) (st.1 original) original
  (fun s => if s = original then r.2 else st.1 s, st.2 ++ [r.1])

/-- `make_unique_column_names` from dashboard.py: trim every label and suffix
repeats of the same trimmed value with `_1`, `_2`, … . -/
def make_unique_column_names (columnList : List String) : List String :=
  (columnList.foldl makeUniqueStep (fun _ => 0, [])).2

/-- The candidate names `searchLoop` tries from state `(count, current)`:
`current`, then `original_(count+1)`, `original_(count+2)`, …  (Proof
scaffolding for the freshness of the deduplicator's output.) -/
def candList (original : String) (count : Nat) (current : String) : Nat → List String
  | 0 => [current]
  | fuel + 1 =>
    current :: candList original (count + 1) (original ++ "_" ++ natStr (count + 1)) fuel

/-- First-occurrence deduplication, structural in `fuel` (the filter only
shrinks the list, so fuel equal to the length is never exhausted). -/
def uniqueListFuel {α : Type} [DecidableEq α] : Nat → List α → List α
  | 0, _ => []
  | _ + 1, [] => []
  | fuel + 1, a :: t => a :: uniqueListFuel fuel (t.filter (fun x => decide (x ≠ a)))

/-- First-occurrence deduplication, modelling `pandas.Series.unique()`. -/
def uniqueList {α : Type} [DecidableEq α] (l : List α) : List α :=
  uniqueListFuel l.length l

/-- Case-insensitive literal match: consume `p` from the head of `l`,
returning the unconsumed rest. -/
def matchCI : List Char → List Char → Option (List Char)
  | [], l => some l
  | _ :: _, [] => none
  | p :: ps, c :: cs => if upChar p = upChar c then matchCI ps cs else none

/-- Match the regex `(?i)amount\s*spent\s*in` at the head of `l` (the `\s*`
gaps are greedy; the following literal is never whitespace, so a maximal
whitespace skip is exact), returning the unconsumed rest. -/
def matchPhrase (l : List Char) : Option (List Char) :=
  (matchCI "amount".data l).bind fun l1 =>
    (matchCI "spent".data (l1.dropWhile isWsChar)).bind fun l2 =>
      matchCI "in".data (l2.dropWhile isWsChar)

/-- `re.sub(r"(?i)amount\s*spent\s*in", "", ·)`: scan left to right, deleting
non-overlapping matches.  A match consumes at least six characters, so fuel
equal to the input length is never exhausted. -/
def removePhraseFuel : Nat → List Char → List Char
  | 0, l => l
  | _ + 1, [] => []
  | fuel + 1, c :: cs =>
    match matchPhrase (c :: cs) with
    | some rest => removePhraseFuel fuel rest
    | none => c :: removePhraseFuel fuel cs

/-- `re.sub(r"\s+", " ", ·)`: collapse every whitespace run to one space. -/
def collapseWsFuel : Nat → List Char → List Char
  | 0, l => l
  | _ + 1, [] => []
  | fuel + 1, c :: cs =>
    if isWsChar c then ' ' :: collapseWsFuel fuel (cs.dropWhile isWsChar)
    else c :: collapseWsFuel fuel cs

/-- `clean_month_label` from `process_icic_salary_data`: delete every
occurrence of the amount-marker phrase from the (deduplicated) amount-column
header, strip, and collapse internal whitespace. -/
def cleanMonthLabel (h : String) : String :=
  let removed := removePhraseFuel h.data.length h.data
  let stripped := trimChars removed
  ⟨collapseWsFuel stripped.length stripped⟩

/-- Number of columns `pd.DataFrame(grid)` ends up with: the longest row. -/
def numCols (g : Grid) : Nat := g.foldr (fun row acc => max row.length acc) 0

/-- `DataFrame.empty`: no rows or no columns. -/
def gridEmptyB (g : Grid) : Bool := g.isEmpty || numCols g == 0

/-- Pad a row to the frame's column count.  (pandas aligns short rows with
NaN; the sheet source returns rectangular grids of strings, so the pad value
never reaches a marker test or a numeric parse that could tell "" from NaN.) -/
def padRow (n : Nat) (row : List String) : List String :=
  row ++ List.replicate (n - row.length) ""

/-- Normalized ledger row (§3 ExpenseRecord). -/
structure ExpenseRecord where
  category : String
  amount : ℚ
  month : String
deriving DecidableEq, Repr

/-- Normalized statement row (§3 StatementRecord). -/
structure StatementRecord where
  month : String
  description : String
  category : String
  debit : ℚ
  credit : ℚ
deriving DecidableEq, Repr

/-- Normalized investment row (§3 InvestmentRecord). -/
structure InvestmentRecord where
  category : String
  month : String
  amount : ℚ
deriving DecidableEq, Repr

/-- Does a raw row contain a cell whose trimmed uppercase form contains
`"EXPENSES CATEGORY"`?  (`any("EXPENSES CATEGORY" in x for x in row_upper)`.) -/
def rowHasMarker (row : List String) : Bool :=
  row.any (fun x => containsSub (strUpper (strTrim x)) "EXPENSES CATEGORY")

/-- The `for r_idx, row in df_raw.iterrows()` header search, top to bottom. -/
def findHeaderAux : Grid → Nat → Option Nat
  | [], _ => none
  | row :: rest, i => if rowHasMarker row then some i else findHeaderAux rest (i + 1)

/-- `is_category` on a deduplicated column name. -/
def isCatName (c : String) : Bool := containsSub (strUpper c) "EXPENSES CATEGORY"

/-- `is_amount` on a deduplicated column name. -/
def isAmtName (c : String) : Bool := containsSub (strUpper c) "AMOUNT SPENT IN"

/-- The `for cj in range(ai - 1, -1, -1)` backward scan: the nearest category
column strictly to the left of position `ai`. -/
def lookBack (cols : List String) : Nat → Option Nat
  | 0 => none
  | j + 1 => if isCatName (cols.getD j "") then some j else lookBack cols j

/-- The category/amount column pairs of the deduplicated header: one pair per
amount column that has a category column somewhere to its left; amount columns
without one are dropped silently. -/
def icicPairs (cols : List String) : List (Nat × Nat) :=
  ((List.range cols.length).filter (fun i => isAmtName (cols.getD i ""))).filterMap
    (fun ai => (lookBack cols ai).map (fun cj => (cj, ai)))

/-- A row of one `tmp` frame before `dropna`: category already filtered
non-empty and stripped, amount coerced (`none` = NaN), month label attached. -/
structure IcicPre where
  category : String
  amount? : Option ℚ
  month : String
deriving DecidableEq, Repr

/-- One `tmp` frame of `process_icic_salary_data` for the pair `p`
(category-column index, amount-column index). -/
def icicBlock (cols : List String) (body : List (List String)) (p : Nat × Nat) :
    List IcicPre :=
  (body.filter (fun row => decide (strTrim (row.getD p.1 "") ≠ ""))).map (fun row =>
    { category := strTrim (row.getD p.1 "")
      amount? := parseAmount (row.getD p.2 "")
      month := cleanMonthLabel (cols.getD p.2 "") })

/-- `process_icic_salary_data` from dashboard.py: header search, column
deduplication, pairing, unpivot, and the final `dropna` on `Amount`. -/
def process_icic_salary_data (g : Grid) : List ExpenseRecord × Option String :=
  if gridEmptyB g then ([], some "Raw DataFrame for ICIC is empty.")
  else
    match findHeaderAux g 0 with
    | none => ([], some "Could not find 'EXPENSES CATEGORY' header in ICIC sheet.")
    | some r =>
      let cols := make_unique_column_names (padRow (numCols g) (g.getD r []))
      let body := (g.drop (r + 1)).map (padRow (numCols g))
      let pairs := icicPairs cols
      if pairs.isEmpty then
        ([], some "Could not pair category with amount columns in ICIC sheet.")
      else
        let rows := (pairs.map (icicBlock cols body)).flatten
        (rows.filterMap (fun pre => pre.amount?.map (fun a =>
          { category := pre.category, amount := a, month := pre.month })), none)

/-- `process_canara_data` from dashboard.py: two guards, then rows from index
4 onward restricted to the first five columns, `Debit`/`Credit` coerced with
zero-fill, and the non-zero filter. -/
def process_canara_data (g : Grid) : List StatementRecord × Option String :=
  if gridEmptyB g then ([], some "Raw DataFrame for CANARA is empty.")
  else if g.length ≤ 4 then ([], some "CANARA sheet has insufficient rows for data.")
  else
    let rows : List StatementRecord := (g.drop 4).map (fun row =>
      { month := strTrim (row.getD 0 "")
        description := row.getD 1 ""
        category := strTrim (row.getD 2 "")
        debit := (parseAmount (row.getD 3 "")).getD 0
        credit := (parseAmount (row.getD 4 "")).getD 0 })
    (rows.filter (fun rec => decide (rec.debit ≠ 0 ∨ rec.credit ≠ 0)), none)

/-- The header scan of `process_investments_data`: column `i` starts a pair
when its trimmed label is non-empty and not itself `AMOUNT INVESTED`
(case-insensitively) and column `i+1` is labelled `AMOUNT INVESTED`; a
category label in the last column has no following column (`IndexError`) and
is skipped silently. -/
def invPairs (header : List String) : List (String × Nat) :=
  (List.range header.length).filterMap (fun i =>
    let categoryName := strTrim (header.getD i "")
    if categoryName ≠ "" ∧ strUpper categoryName ≠ "AMOUNT INVESTED" then
      if i + 1 < header.length then
        if strUpper (strTrim (header.getD (i + 1) "")) = "AMOUNT INVESTED" then
          some (categoryName, i)
        else none
      else none
    else none)

/-- A row of one investments `tmp_df` before cleaning. -/
structure InvPre where
  category : String
  monthCell : String
  amountCell : String
deriving DecidableEq, Repr

/-- The `frames` list of `process_investments_data`: one block (`tmp_df`) per
header pair, one pre-row per body row. -/
def invFrames (g : Grid) : List (List InvPre) :=
  (invPairs (padRow (numCols g) (g.getD 0 []))).map (fun ci =>
    ((g.drop 1).map (padRow (numCols g))).map (fun row =>
      ({ category := ci.1, monthCell := row.getD ci.2 "",
         amountCell := row.getD (ci.2 + 1) "" } : InvPre)))

/-- `process_investments_data` from dashboard.py. -/
def process_investments_data (g : Grid) : List InvestmentRecord × Option String :=
  if gridEmptyB g || numCols g < 2 then
    ([], some "Raw DataFrame for Investments is empty or has insufficient columns.")
  else if (invFrames g).isEmpty then ([], some "No valid investment data found.")
  else
    ((((invFrames g).flatten.filter
        (fun t => decide (strTrim t.monthCell ≠ ""))).filterMap
      (fun t => (parseAmount t.amountCell).map (fun a =>
        { category := strTrim t.category, month := strTrim t.monthCell,
          amount := a }))), none)

/-- The month/category filter of `update_main_dashboard`: a `None` or empty
selection is falsy in Python and leaves the table unrestricted. -/
def filterExpenses (tbl : List ExpenseRecord) (months cats : List String) :
    List ExpenseRecord :=
  let m := if months.isEmpty then tbl else tbl.filter (fun r => months.contains r.month)
  if cats.isEmpty then m else m.filter (fun r => cats.contains r.category)

/-- `total_expenses = filtered_df["Amount"].sum()`. -/
def totalExpenses (tbl : List ExpenseRecord) (months cats : List String) : ℚ :=
  ((filterExpenses tbl months cats).map (·.amount)).sum

/-- `df["Month"].unique()`: distinct months in order of first appearance. -/
def distinctMonths (tbl : List ExpenseRecord) : List String :=
  uniqueList (tbl.map (·.month))

/-- Distinct months of the statement table (the groupby keys of
`calculate_savings_goal`'s `monthly_summary`). -/
def canaraMonths (tbl : List StatementRecord) : List String :=
  uniqueList (tbl.map (·.month))

/-- One row of `monthly_summary["Net Savings"]`: credit sum minus debit sum of
the month's rows. -/
def netSavingsOfMonth (tbl : List StatementRecord) (m : String) : ℚ :=
  ((tbl.filter (fun r => decide (r.month = m))).map (·.credit)).sum
    - ((tbl.filter (fun r => decide (r.month = m))).map (·.debit)).sum

/-- `historical_avg_monthly_net_savings = monthly_summary["Net Savings"].mean()`:
mean over the distinct months present (not a fixed calendar count). -/
def historicalAvg (tbl : List StatementRecord) : ℚ :=
  ((canaraMonths tbl).map (netSavingsOfMonth tbl)).sum / (canaraMonths tbl).length

/-- The structured content of the message `calculate_savings_goal` returns:
each constructor carries exactly the numbers interpolated into the
corresponding `html.P` string of the source, and nothing else. -/
inductive GoalMessage where
  | noData
  | noHistory
  | cannotPredictTime
  | timeNeeded (avg target months : ℚ)
  | invalidDuration
  | wontSave
  | projected (avg duration proj : ℚ)
  | invalidTarget
  | monthlyNeeded (target duration required : ℚ)
  | invalidInput
deriving DecidableEq, Repr

/-- `calculate_savings_goal` from dashboard.py, with the stored CANARA table
in place of its JSON serialization (the store holds `None` exactly when no
non-empty statement table was produced). -/
def calculate_savings_goal (targetAmount duration : Option ℚ)
    (canara : Option (List StatementRecord)) : GoalMessage :=
  match canara with
  | none => .noData
  | some tbl =>
    if (canaraMonths tbl).isEmpty then .noHistory
    else
      let avg := historicalAvg tbl
      match targetAmount, duration with
      | some target, none =>
        if avg ≤ 0 then .cannotPredictTime
        else .timeNeeded avg target (target / avg)
      | none, some d =>
        if d ≤ 0 then .invalidDuration
        else if avg ≤ 0 then .wontSave
        else .projected avg d (avg * d)
      | some target, some d =>
        if d ≤ 0 then .invalidDuration
        else if target ≤ 0 then .invalidTarget
        else .monthlyNeeded target d (target / d)
      | none, none => .invalidInput

/-- Modelled from the spec: the installment-countdown computation is absent
from the source under `src/` — the investments page layout only declares the
three KPI cards (`lic/kumaran/thangamayil-installments-kpi`, placeholder
"N/A") and no callback fills them.  §4.5 defines `paid` as the number of rows
of the *unfiltered* investment table matching the configured category. -/
def installmentsPaid (tbl : List InvestmentRecord) (cat : String) : Nat :=
  (tbl.filter (fun r => decide (r.category = cat))).length

/-- Modelled from the spec: `remaining = max(0, total − paid)` for a category
with configured total installment count. -/
def remainingInstallments (tbl : List InvestmentRecord) (cat : String)
    (total : Int) : Int :=
  max 0 (total - installmentsPaid tbl cat)

/-- The three browser-side `dcc.Store`s (`stored-icic-data`,
`stored-canara-data`, `stored-investments-data`): each holds the JSON of a
non-empty parsed table, or `None`. -/
structure StoredTables where
  icic : Option (List ExpenseRecord)
  canara : Option (List StatementRecord)
  investments : Option (List InvestmentRecord)
deriving DecidableEq, Repr

/-- The per-tab portion of `load_data_from_google_sheets` (after successful
authentication): each tab is fetched independently, a raised fetch error or a
missing worksheet (`fetch = none`) skips that tab's parser for the cycle and
leaves its table empty, and the other tabs proceed regardless. -/
def load_data_from_google_sheets (fIcic fCanara fInv : Option Grid) :
    List ExpenseRecord × List StatementRecord × List InvestmentRecord × Option String :=
  ((match fIcic with | some g => (process_icic_salary_data g).1 | none => []),
   (match fCanara with | some g => (process_canara_data g).1 | none => []),
   (match fInv with | some g => (process_investments_data g).1 | none => []),
   none)

/-- `fetch_and_store_data`: one refresh cycle on the success path.  The
previous store contents are an argument only so the theorems can say they are
never consulted: the callback overwrites every store, serializing each
non-empty freshly parsed table and writing `None` for every table it could
not (re)produce this cycle. -/
def fetch_and_store_data (prev : StoredTables) (fIcic fCanara fInv : Option Grid) :
    StoredTables :=
  let r := load_data_from_google_sheets fIcic fCanara fInv
  { icic := if r.1.isEmpty then none else some r.1
    canara := if r.2.1.isEmpty then none else some r.2.1
    investments := if r.2.2.1.isEmpty then none else some r.2.2.1 }

/-- The Statement Parser output as claim C6 words it: the rows from index 4
onward, restricted to the first five positionally named columns, keeping only
rows with a non-zero debit or credit. -/
def canaraClaimRecords (g : Grid) : List StatementRecord :=
  ((g.drop 4).map (fun row =>
    ({ month := strTrim (row.getD 0 "")
       description := row.getD 1 ""
       category := strTrim (row.getD 2 "")
       debit := (parseAmount (row.getD 3 "")).getD 0
       credit := (parseAmount (row.getD 4 "")).getD 0 } : StatementRecord))).filter
    (fun rec => decide (rec.debit ≠ 0 ∨ rec.credit ≠ 0))

/-- Concrete statement table whose historical average monthly net savings is
4000 (one month, credit 4000, debit 0). -/
def tblUnder : List StatementRecord := [⟨"Jan", "d", "c", 0, 4000⟩]

/-- Concrete statement table whose historical average monthly net savings is
100000 — far above the 5000/month the goal below requires. -/
def tblOver : List StatementRecord := [⟨"Jan", "d", "c", 0, 100000⟩]

/-- Concrete investment table with 4 LIC installments paid (plus noise rows). -/
def invPaid4 : List InvestmentRecord :=
  [⟨"LIC", "Jan-24", 5000⟩, ⟨"LIC", "Feb-24", 5000⟩, ⟨"LIC", "Mar-24", 5000⟩,
   ⟨"LIC", "Apr-24", 5000⟩, ⟨"KUMARAN", "Jan-24", 2000⟩]

/-- Concrete investment table with 9 KUMARAN installments paid. -/
def invPaid9 : List InvestmentRecord :=
  (List.range 9).map (fun i => ⟨"KUMARAN", natStr i, 2000⟩)

/-- A previous-cycle store state (used to show refreshes never consult it). -/
def prevStateA : StoredTables := ⟨some [⟨"Old", 1, "Jan"⟩], some tblUnder, some invPaid4⟩

/-- Another previous-cycle store state. -/
def prevStateB : StoredTables := ⟨none, none, none⟩

/-- The claim C6 example grid: 4 header rows, then a row with zero debit and
credit and a row with debit 100. -/
def canaraGridC6 : Grid :=
  [["t"], ["t"], ["t"], ["t"],
   ["Jan", "d", "c", "0", "0"], ["Feb", "e", "f", "100", "0"]]

/-- A concrete investments grid for the C10 witness. -/
def gInvW7 : Grid := [["LIC", "AMOUNT INVESTED"], ["Jan", "7"]]

/-- A grid whose second and third rows both contain the category marker (the
header search must take the second, index 1). -/
def gHdr : Grid :=
  [["x", "y"], ["Expenses Category", "Amount Spent in Jan"],
   ["expenses category again", "z"]]

/-- A non-empty grid with no category marker anywhere. -/
def gNoHdr : Grid := [["x", "y"], ["a", "b"]]

/-- A deduplicated header for the C5 witness: the amount column at position 0
has no category column to its left (silently excluded), the amount column at
position 3 pairs with the category column at position 1, skipping the
non-marker column at position 2. -/
def colsW : List String :=
  ["Amount Spent in Dec", "Expenses Category", "junk", "Amount Spent in Jan"]

/-- A grid whose header has an amount column but no category column to its
left, so zero pairs are found. -/
def gNoPairs : Grid := [["Amount Spent in Jan", "Expenses Category"]]

/-- C1 (amended): with both a positive target and a positive duration supplied
and a non-empty statement table present, `calculate_savings_goal` reports
`monthly_required = target / duration`; the report carries only the target,
the duration and the required monthly amount — it does not compare the
requirement against the historical average monthly net savings. -/
theorem goal_both_inputs_amended (tbl : List StatementRecord) (target d : ℚ)
    (hne : tbl ≠ []) (ht : 0 < target) (hd : 0 < d) :
    calculate_savings_goal (some target) (some d) (some tbl) =
      GoalMessage.monthlyNeeded target d (target / d) := by
  have hm : (canaraMonths tbl).isEmpty = false := by
    cases tbl with
    | nil => exact absurd rfl hne
    | cons r t => simp [canaraMonths, uniqueList, uniqueListFuel]
  simp [calculate_savings_goal, hm, not_le.mpr ht, not_le.mpr hd]

/-- Witness for the amended C1 at the spec's numbers: target 60000 over 12
months needs 5000 per month. -/
theorem goal_both_inputs_amended_witness :
    calculate_savings_goal (some 60000) (some 12) (some tblUnder) =
      GoalMessage.monthlyNeeded 60000 12 5000 :=
  (goal_both_inputs_amended tblUnder 60000 12 (by decide) (by decide)
    (by decide)).trans (by norm_num)

/-- C1 counterexample: at target 60000 and duration 12, a table whose
historical average is 4000 (under-saving: 5000 > 4000) and a table whose
historical average is 100000 (over-saving) produce the *same* report,
`monthlyNeeded 60000 12 5000`, whose constructor carries no average; so the
report cannot compare `monthly_required` against the average or indicate that
a savings increase is needed, contrary to the claim. -/
theorem goal_both_inputs_counterexample :
    historicalAvg tblUnder = 4000 ∧ historicalAvg tblOver = 100000 ∧
    calculate_savings_goal (some 60000) (some 12) (some tblUnder) =
      GoalMessage.monthlyNeeded 60000 12 5000 ∧
    calculate_savings_goal (some 60000) (some 12) (some tblOver) =
      calculate_savings_goal (some 60000) (some 12) (some tblUnder) := by
  have havg1 : historicalAvg tblUnder = 4000 := by
    norm_num [historicalAvg, canaraMonths, tblUnder, uniqueList, uniqueListFuel,
      netSavingsOfMonth, List.filter_cons]
  have havg2 : historicalAvg tblOver = 100000 := by
    norm_num [historicalAvg, canaraMonths, tblOver, uniqueList, uniqueListFuel,
      netSavingsOfMonth, List.filter_cons]
  have h3 : calculate_savings_goal (some 60000) (some 12) (some tblUnder) =
      GoalMessage.monthlyNeeded 60000 12 (60000 / 12) := by
    norm_num [calculate_savings_goal, tblUnder, canaraMonths, uniqueList,
      uniqueListFuel]
  have h4 : calculate_savings_goal (some 60000) (some 12) (some tblOver) =
      GoalMessage.monthlyNeeded 60000 12 (60000 / 12) := by
    norm_num [calculate_savings_goal, tblOver, canaraMonths, uniqueList,
      uniqueListFuel]
  have h5 : (60000 : ℚ) / 12 = 5000 := by norm_num
  exact ⟨havg1, havg2, h3.trans (by rw [h5]), h4.trans h3.symm⟩

/-- C2 (spec-modelled): the remaining-installment count is `max(0, total −
paid)` where `paid` counts the rows of the unfiltered investment table
matching the category; it is never negative, equals `total − paid` while
installments remain, and clamps to zero once `paid ≥ total`. -/
theorem installment_countdown_spec (tbl : List InvestmentRecord) (cat : String)
    (total : Int) :
    0 ≤ remainingInstallments tbl cat total ∧
    ((installmentsPaid tbl cat : Int) ≤ total →
      remainingInstallments tbl cat total = total - installmentsPaid tbl cat) ∧
    (total ≤ (installmentsPaid tbl cat : Int) →
      remainingInstallments tbl cat total = 0) := by
  refine ⟨le_max_left 0 _, fun h => ?_, fun h => ?_⟩
  · exact max_eq_right (by omega)
  · exact max_eq_left (by omega)

/-- Witness for C2 at the spec's numbers: total 15 with 4 paid leaves 11;
total 5 with 9 paid clamps to 0. -/
theorem installment_countdown_spec_witness :
    remainingInstallments invPaid4 "LIC" 15 = 11 ∧
    remainingInstallments invPaid9 "KUMARAN" 5 = 0 := by
  constructor
  · exact ((installment_countdown_spec invPaid4 "LIC" 15).2.1 (by decide)).trans
      (by decide)
  · exact (installment_countdown_spec invPaid9 "KUMARAN" 5).2.2 (by decide)

/-- C3: one refresh cycle never consults the previous store contents; a
failed tab fetch leaves that tab's store `None` while the other tabs'
outcomes are unchanged; and any table a refresh does store is a non-empty
table freshly parsed from this cycle's grid — never a stale snapshot. -/
theorem refresh_no_retention (prev prev' : StoredTables)
    (fIcic fIcic' fCanara fInv : Option Grid) :
    fetch_and_store_data prev fIcic fCanara fInv =
      fetch_and_store_data prev' fIcic fCanara fInv ∧
    (fIcic = none → (fetch_and_store_data prev fIcic fCanara fInv).icic = none) ∧
    (fCanara = none → (fetch_and_store_data prev fIcic fCanara fInv).canara = none) ∧
    (fInv = none → (fetch_and_store_data prev fIcic fCanara fInv).investments = none) ∧
    (fetch_and_store_data prev fIcic fCanara fInv).canara =
      (fetch_and_store_data prev fIcic' fCanara fInv).canara ∧
    (fetch_and_store_data prev fIcic fCanara fInv).investments =
      (fetch_and_store_data prev fIcic' fCanara fInv).investments ∧
    (∀ t, (fetch_and_store_data prev fIcic fCanara fInv).icic = some t →
      ∃ gr, fIcic = some gr ∧ t = (process_icic_salary_data gr).1 ∧ t ≠ []) ∧
    (∀ t, (fetch_and_store_data prev fIcic fCanara fInv).canara = some t →
      ∃ gr, fCanara = some gr ∧ t = (process_canara_data gr).1 ∧ t ≠ []) ∧
    (∀ t, (fetch_and_store_data prev fIcic fCanara fInv).investments = some t →
      ∃ gr, fInv = some gr ∧ t = (process_investments_data gr).1 ∧ t ≠ []) := by
  refine ⟨rfl, ?_, ?_, ?_, ?_, ?_, ?_, ?_, ?_⟩
  · rintro rfl; rfl
  · rintro rfl
    simp [fetch_and_store_data, load_data_from_google_sheets]
  · rintro rfl
    simp [fetch_and_store_data, load_data_from_google_sheets]
  · rfl
  · rfl
  · intro t ht
    cases fIcic with
    | none => simp [fetch_and_store_data, load_data_from_google_sheets] at ht
    | some gr =>
      refine ⟨gr, rfl, ?_⟩
      by_cases he : (process_icic_salary_data gr).1.isEmpty <;>
        simp [fetch_and_store_data, load_data_from_google_sheets, he] at ht ⊢ <;>
        simp_all [List.isEmpty_iff]
  · intro t ht
    cases fCanara with
    | none => simp [fetch_and_store_data, load_data_from_google_sheets] at ht
    | some gr =>
      refine ⟨gr, rfl, ?_⟩
      by_cases he : (process_canara_data gr).1.isEmpty <;>
        simp [fetch_and_store_data, load_data_from_google_sheets, he] at ht ⊢ <;>
        simp_all [List.isEmpty_iff]
  · intro t ht
    cases fInv with
    | none => simp [fetch_and_store_data, load_data_from_google_sheets] at ht
    | some gr =>
      refine ⟨gr, rfl, ?_⟩
      by_cases he : (process_investments_data gr).1.isEmpty <;>
        simp [fetch_and_store_data, load_data_from_google_sheets, he] at ht ⊢ <;>
        simp_all [List.isEmpty_iff]

/-- Witness for C3: with the ICIC fetch failing, the refresh nulls the ICIC
store regardless of the previous state holding an old ICIC table. -/
theorem refresh_no_retention_witness :
    (fetch_and_store_data prevStateA none (some canaraGridC6) none).icic = none ∧
    (fetch_and_store_data prevStateA none (some canaraGridC6) none).investments = none ∧
    fetch_and_store_data prevStateA none (some canaraGridC6) none =
      fetch_and_store_data prevStateB none (some canaraGridC6) none := by
  refine ⟨?_, ?_, ?_⟩
  · exact (refresh_no_retention prevStateA prevStateB none none
      (some canaraGridC6) none).2.1 rfl
  · exact (refresh_no_retention prevStateA prevStateB none none
      (some canaraGridC6) none).2.2.2.1 rfl
  · exact (refresh_no_retention prevStateA prevStateB none none
      (some canaraGridC6) none).1

/-- Every row of a grid is at most as long as the frame's column count. -/
theorem length_le_numCols {g : Grid} {row : List String} (h : row ∈ g) :
    row.length ≤ numCols g := by
  induction g with
  | nil => cases h
  | cons a t ih =>
    rcases List.mem_cons.1 h with rfl | h'
    · exact le_max_left _ _
    · exact le_trans (ih h') (le_max_right _ _)

/-- C6: for a grid with more than 4 rows, the Statement Parser's records are
exactly the rows from index 4 onward, restricted to the first five
positionally-named columns, keeping only rows with a non-zero debit or
credit; and on a non-degenerate grid the parser reports no error. -/
theorem canara_output_spec (g : Grid) (hrows : 4 < g.length) :
    (process_canara_data g).1 = canaraClaimRecords g ∧
    (gridEmptyB g = false → process_canara_data g = (canaraClaimRecords g, none)) := by
  have hne : g.isEmpty = false := by
    cases g with
    | nil => simp at hrows
    | cons a t => rfl
  have hnotle : ¬g.length ≤ 4 := not_le.mpr hrows
  by_cases hemp : gridEmptyB g
  · have hcols : numCols g = 0 := by
      simpa [gridEmptyB, hne] using hemp
    have h1 : (process_canara_data g).1 = [] := by simp [process_canara_data, hemp]
    have h2 : canaraClaimRecords g = [] := by
      rw [canaraClaimRecords, List.filter_eq_nil_iff]
      intro rec hrec
      rcases List.mem_map.1 hrec with ⟨row, hrow, rfl⟩
      have hmem : row ∈ g := List.drop_subset 4 g hrow
      have hlen : row.length = 0 :=
        Nat.le_zero.mp (hcols ▸ length_le_numCols hmem)
      rw [List.length_eq_zero.mp hlen]
      decide
    refine ⟨h1.trans h2.symm, fun hfalse => ?_⟩
    rw [hfalse] at hemp
    cases hemp
  · have : process_canara_data g = (canaraClaimRecords g, none) := by
      simp [process_canara_data, hemp, hnotle, canaraClaimRecords]
    exact ⟨by rw [this], fun _ => this⟩

/-- Witness for C6 at the claim's grid: 4 header rows plus a zero row and a
debit-100 row produce exactly one record, the debit-100 row. -/
theorem canara_output_spec_witness :
    (process_canara_data canaraGridC6).1 =
      [{ month := "Feb", description := "e", category := "f",
         debit := 100, credit := 0 }] := by
  refine ((canara_output_spec canaraGridC6 (by decide)).1).trans ?_
  with_unfolding_all decide

/-- The header search succeeds with index `i + k` exactly when row `k` is the
first marker row of `g`. -/
theorem findHeaderAux_some_iff (g : Grid) :
    ∀ i r, findHeaderAux g i = some r ↔
      ∃ k, k < g.length ∧ r = i + k ∧ rowHasMarker (g.getD k []) = true ∧
        ∀ j < k, rowHasMarker (g.getD j []) = false := by
  induction g with
  | nil => intro i r; simp [findHeaderAux]
  | cons row rest ih =>
    intro i r
    by_cases hm : rowHasMarker row
    · have hstep : findHeaderAux (row :: rest) i = some i := by
        simp [findHeaderAux, hm]
      rw [hstep]
      constructor
      · rintro h
        injection h with h
        exact ⟨0, by simp, by omega, by simpa using hm, by omega⟩
      · rintro ⟨k, hk, rfl, hmk, hfirst⟩
        cases k with
        | zero => simp
        | succ k' =>
          have := hfirst 0 (Nat.succ_pos k')
          simp [hm] at this
    · have hstep : findHeaderAux (row :: rest) i = findHeaderAux rest (i + 1) := by
        simp [findHeaderAux, hm]
      rw [hstep, ih (i + 1) r]
      constructor
      · rintro ⟨k, hk, rfl, hmk, hfirst⟩
        refine ⟨k + 1, by simpa using Nat.succ_lt_succ hk, by omega, by simpa using hmk, ?_⟩
        intro j hj
        cases j with
        | zero => simpa using hm
        | succ j' => simpa using hfirst j' (by omega)
      · rintro ⟨k, hk, rfl, hmk, hfirst⟩
        cases k with
        | zero =>
          simp only [List.getD_cons_zero] at hmk
          exact absurd hmk hm
        | succ k' =>
          simp only [List.length_cons] at hk
          refine ⟨k', by omega, by omega, by simpa using hmk, ?_⟩
          intro j hj
          simpa using hfirst (j + 1) (by omega)

/-- The header search fails exactly when no row of the grid has a marker cell. -/
theorem findHeaderAux_none_iff (g : Grid) :
    ∀ i, findHeaderAux g i = none ↔ ∀ row ∈ g, rowHasMarker row = false := by
  induction g with
  | nil => intro i; simp [findHeaderAux]
  | cons row rest ih =>
    intro i
    by_cases hm : rowHasMarker row
    · have hstep : findHeaderAux (row :: rest) i = some i := by
        simp [findHeaderAux, hm]
      rw [hstep]
      constructor
      · intro h; cases h
      · intro h
        have := h row (List.mem_cons_self row rest)
        rw [hm] at this
        cases this
    · have hstep : findHeaderAux (row :: rest) i = findHeaderAux rest (i + 1) := by
        simp [findHeaderAux, hm]
      rw [hstep, ih (i + 1)]
      constructor
      · intro h r hr
        rcases List.mem_cons.1 hr with rfl | hr'
        · simpa using hm
        · exact h r hr'
      · intro h r hr
        exact h r (List.mem_cons_of_mem row hr)

/-- C7: the Ledger Parser's header search takes the *first* row containing a
cell that, trimmed and uppercased, contains `"EXPENSES CATEGORY"`; and when no
row of a (non-degenerate) grid matches, the parser returns the empty table
with the header-not-found message instead of raising. -/
theorem header_row_first (g : Grid) :
    (∀ r, findHeaderAux g 0 = some r →
      r < g.length ∧ rowHasMarker (g.getD r []) = true ∧
        ∀ j < r, rowHasMarker (g.getD j []) = false) ∧
    (findHeaderAux g 0 = none ↔ ∀ row ∈ g, rowHasMarker row = false) ∧
    (gridEmptyB g = false → findHeaderAux g 0 = none →
      process_icic_salary_data g =
        ([], some "Could not find 'EXPENSES CATEGORY' header in ICIC sheet.")) := by
  refine ⟨?_, findHeaderAux_none_iff g 0, ?_⟩
  · intro r hr
    rcases (findHeaderAux_some_iff g 0 r).1 hr with ⟨k, hk, rfl, hmk, hfirst⟩
    exact ⟨by omega, by simpa using hmk, by simpa using hfirst⟩
  · intro hemp hnone
    simp [process_icic_salary_data, hemp, hnone]

/-- Witness for C7: on `gHdr` the search returns index 1 (the first of two
marker rows); on `gNoHdr` the parser fails softly with the header message. -/
theorem header_row_first_witness :
    (1 < gHdr.length ∧ rowHasMarker (gHdr.getD 1 []) = true ∧
      ∀ j < 1, rowHasMarker (gHdr.getD j []) = false) ∧
    process_icic_salary_data gNoHdr =
      ([], some "Could not find 'EXPENSES CATEGORY' header in ICIC sheet.") :=
  ⟨(header_row_first gHdr).1 1 (by decide),
   (header_row_first gNoHdr).2.2 (by decide) (by decide)⟩

/-- When the backward scan returns `cj`, column `cj` is a category column
strictly left of `ai` and no category column lies strictly between them. -/
theorem lookBack_some {cols : List String} :
    ∀ {ai cj}, lookBack cols ai = some cj →
      cj < ai ∧ isCatName (cols.getD cj "") = true ∧
        ∀ k, cj < k → k < ai → isCatName (cols.getD k "") = false := by
  intro ai
  induction ai with
  | zero => intro cj h; cases h
  | succ j ihj =>
    intro cj h
    by_cases hc : isCatName (cols.getD j "") = true
    · have hstep : lookBack cols (j + 1) = some j := by
        simp only [lookBack]; rw [if_pos hc]
      rw [hstep] at h
      have hcj : j = cj := by injection h
      subst hcj
      exact ⟨Nat.lt_succ_self j, hc, fun k hk1 hk2 => absurd hk1 (by omega)⟩
    · have hstep : lookBack cols (j + 1) = lookBack cols j := by
        simp only [lookBack]; rw [if_neg hc]
      rw [hstep] at h
      obtain ⟨h1, h2, h3⟩ := ihj h
      refine ⟨by omega, h2, fun k hk1 hk2 => ?_⟩
      rcases Nat.lt_succ_iff_lt_or_eq.1 hk2 with hlt | rfl
      · exact h3 k hk1 hlt
      · simp only [Bool.not_eq_true] at hc
        exact hc

/-- The backward scan fails exactly when no category column lies strictly
left of `ai`. -/
theorem lookBack_none {cols : List String} :
    ∀ {ai}, lookBack cols ai = none ↔
      ∀ j < ai, isCatName (cols.getD j "") = false := by
  intro ai
  induction ai with
  | zero => simp [lookBack]
  | succ j ihj =>
    by_cases hc : isCatName (cols.getD j "") = true
    · have hstep : lookBack cols (j + 1) = some j := by
        simp only [lookBack]; rw [if_pos hc]
      rw [hstep]
      constructor
      · intro h; cases h
      · intro h
        have hff := h j (Nat.lt_succ_self j)
        rw [hc] at hff
        exact Bool.noConfusion hff
    · have hstep : lookBack cols (j + 1) = lookBack cols j := by
        simp only [lookBack]; rw [if_neg hc]
      rw [hstep, ihj]
      constructor
      · intro h k hk
        rcases Nat.lt_succ_iff_lt_or_eq.1 hk with hlt | rfl
        · exact h k hlt
        · simp only [Bool.not_eq_true] at hc
          exact hc
      · intro h k hk
        exact h k (by omega)

/-- Pair membership: `(cj, ai)` is produced exactly when `ai` is an amount
column of the header and the backward scan from `ai` lands on `cj`. -/
theorem mem_icicPairs {cols : List String} {cj ai : Nat} :
    (cj, ai) ∈ icicPairs cols ↔
      ai < cols.length ∧ isAmtName (cols.getD ai "") = true ∧
        lookBack cols ai = some cj := by
  unfold icicPairs
  rw [List.mem_filterMap]
  constructor
  · rintro ⟨a, ha, hfa⟩
    rcases Option.map_eq_some'.1 hfa with ⟨c, hc, heq⟩
    injection heq with h1 h2
    subst h1; subst h2
    rcases List.mem_filter.1 ha with ⟨hrange, hamt⟩
    exact ⟨List.mem_range.1 hrange, hamt, hc⟩
  · rintro ⟨hlen, hamt, hlb⟩
    exact ⟨ai, List.mem_filter.2 ⟨List.mem_range.2 hlen, hamt⟩,
      by rw [hlb]; rfl⟩

/-- C5: every amount column of the deduplicated header with a category column
somewhere to its left is paired with the *nearest* such column; an amount
column with none to its left appears in no pair; and when zero pairs result
the parser returns the empty table with the no-pairs message. -/
theorem ledger_pairing (cols : List String) :
    (∀ ai, ai < cols.length → isAmtName (cols.getD ai "") = true →
      ((∃ cj, cj < ai ∧ isCatName (cols.getD cj "") = true) →
        ∃ cj, (cj, ai) ∈ icicPairs cols ∧ cj < ai ∧
          isCatName (cols.getD cj "") = true ∧
          ∀ k, cj < k → k < ai → isCatName (cols.getD k "") = false) ∧
      ((∀ cj, cj < ai → isCatName (cols.getD cj "") = false) →
        ∀ cj, (cj, ai) ∉ icicPairs cols)) ∧
    (∀ g r, findHeaderAux g 0 = some r →
      icicPairs (make_unique_column_names (padRow (numCols g) (g.getD r []))) = [] →
      process_icic_salary_data g =
        ([], some "Could not pair category with amount columns in ICIC sheet.")) := by
  constructor
  · intro ai hlen hamt
    constructor
    · rintro ⟨cj, hcj, hcat⟩
      cases hlb : lookBack cols ai with
      | none =>
        have hff := lookBack_none.1 hlb cj hcj
        rw [hcat] at hff
        exact Bool.noConfusion hff
      | some c =>
        obtain ⟨h1, h2, h3⟩ := lookBack_some hlb
        exact ⟨c, mem_icicPairs.2 ⟨hlen, hamt, hlb⟩, h1, h2, h3⟩
    · intro hnone cj hmem
      obtain ⟨_, _, hlb⟩ := mem_icicPairs.1 hmem
      obtain ⟨h1, h2, _⟩ := lookBack_some hlb
      have hff := hnone cj h1
      rw [h2] at hff
      exact Bool.noConfusion hff
  · intro g r hfind hpairs
    obtain ⟨k, hk, hr0, hmk, _⟩ := (findHeaderAux_some_iff g 0 r).1 hfind
    have hrk : r = k := by omega
    subst hrk
    have hrow : g.getD r [] ∈ g := by
      rw [List.getD_eq_getElem g [] hk]
      exact List.getElem_mem hk
    have hrowne : g.getD r [] ≠ [] := by
      intro hnil
      rw [hnil] at hmk
      cases hmk
    have hcols1 : 1 ≤ numCols g := by
      refine le_trans ?_ (length_le_numCols hrow)
      cases hget : g.getD r [] with
      | nil => exact absurd hget hrowne
      | cons a t => simp
    have hemp : gridEmptyB g = false := by
      have hgne : g.isEmpty = false := by
        cases g with
        | nil => simp at hk
        | cons a t => rfl
      simp [gridEmptyB, hgne]
      omega
    simp only [List.getD_eq_getElem?_getD] at hpairs
    simp [process_icic_salary_data, hemp, hfind, hpairs]

/-- Witness for C5 on `colsW` (amount at 0 unpaired, amount at 3 paired with
the nearest category at 1) and on `gNoPairs` (zero pairs, soft failure). -/
theorem ledger_pairing_witness :
    (∃ cj, (cj, 3) ∈ icicPairs colsW ∧ cj < 3 ∧
      isCatName (colsW.getD cj "") = true ∧
      ∀ k, cj < k → k < 3 → isCatName (colsW.getD k "") = false) ∧
    (∀ cj, (cj, 0) ∉ icicPairs colsW) ∧
    process_icic_salary_data gNoPairs =
      ([], some "Could not pair category with amount columns in ICIC sheet.") :=
  ⟨((ledger_pairing colsW).1 3 (by decide) (by decide)).1
      ⟨1, by decide, by decide⟩,
   ((ledger_pairing colsW).1 0 (by decide) (by decide)).2
      (fun cj h => absurd h (Nat.not_lt_zero cj)),
   (ledger_pairing colsW).2 gNoPairs 0 (by decide) (by decide)⟩

/-- The fuel of `uniqueListFuel` is irrelevant once it covers the length. -/
theorem uniqueListFuel_irrel {α : Type} [DecidableEq α] :
    ∀ (fuel fuel' : Nat) (l : List α), l.length ≤ fuel → l.length ≤ fuel' →
      uniqueListFuel fuel l = uniqueListFuel fuel' l := by
  intro fuel
  induction fuel with
  | zero =>
    intro fuel' l hl _
    have : l = [] := List.length_eq_zero.mp (Nat.le_zero.mp hl)
    subst this
    cases fuel' <;> rfl
  | succ fuel ih =>
    intro fuel' l hl hl'
    cases l with
    | nil => cases fuel' <;> rfl
    | cons a t =>
      cases fuel' with
      | zero => simp at hl'
      | succ fuel' =>
        simp only [uniqueListFuel]
        refine congrArg _ (ih fuel' (t.filter (fun x => decide (x ≠ a))) ?_ ?_) <;>
          simp only [List.length_cons] at hl hl' <;>
          exact le_trans (List.length_filter_le _ t) (by omega)

/-- The recursion equation of `uniqueList`. -/
theorem uniqueList_cons {α : Type} [DecidableEq α] (a : α) (t : List α) :
    uniqueList (a :: t) =
      a :: uniqueList (t.filter (fun x => decide (x ≠ a))) := by
  show uniqueListFuel (a :: t).length (a :: t) = _
  simp only [List.length_cons, uniqueListFuel]
  exact congrArg _ (uniqueListFuel_irrel t.length _ _
    (List.length_filter_le _ t) le_rfl)

/-- `uniqueList` preserves membership. -/
theorem mem_uniqueList {α : Type} [DecidableEq α] (b : α) :
    ∀ (l : List α), b ∈ uniqueList l ↔ b ∈ l := by
  suffices h : ∀ (n : Nat) (l : List α), l.length ≤ n →
      (b ∈ uniqueList l ↔ b ∈ l) from fun l => h l.length l le_rfl
  intro n
  induction n with
  | zero =>
    intro l hl
    have : l = [] := List.length_eq_zero.mp (Nat.le_zero.mp hl)
    subst this
    simp [uniqueList, uniqueListFuel]
  | succ n ih =>
    intro l hl
    cases l with
    | nil => simp [uniqueList, uniqueListFuel]
    | cons a t =>
      rw [uniqueList_cons]
      simp only [List.length_cons] at hl
      have ihf := ih (t.filter (fun x => decide (x ≠ a)))
        (le_trans (List.length_filter_le _ t) (by omega))
      by_cases hb : b = a
      · subst hb; simp
      · simp only [List.mem_cons, hb, false_or]
        rw [ihf, List.mem_filter]
        simp [hb]

/-- `uniqueList` returns pairwise-distinct values. -/
theorem nodup_uniqueList {α : Type} [DecidableEq α] :
    ∀ (l : List α), (uniqueList l).Nodup := by
  suffices h : ∀ (n : Nat) (l : List α), l.length ≤ n → (uniqueList l).Nodup from
    fun l => h l.length l le_rfl
  intro n
  induction n with
  | zero =>
    intro l hl
    have : l = [] := List.length_eq_zero.mp (Nat.le_zero.mp hl)
    subst this
    simp [uniqueList, uniqueListFuel]
  | succ n ih =>
    intro l hl
    cases l with
    | nil => simp [uniqueList, uniqueListFuel]
    | cons a t =>
      rw [uniqueList_cons]
      simp only [List.length_cons] at hl
      refine List.nodup_cons.2 ⟨?_, ih _ (le_trans (List.length_filter_le _ t) (by omega))⟩
      intro hmem
      rw [mem_uniqueList, List.mem_filter] at hmem
      simp at hmem

/-- `uniqueList` commutes with filtering. -/
theorem uniqueList_filter {α : Type} [DecidableEq α] (q : α → Bool) :
    ∀ (l : List α), uniqueList (l.filter q) = (uniqueList l).filter q := by
  suffices h : ∀ (n : Nat) (l : List α), l.length ≤ n →
      uniqueList (l.filter q) = (uniqueList l).filter q from
    fun l => h l.length l le_rfl
  intro n
  induction n with
  | zero =>
    intro l hl
    have : l = [] := List.length_eq_zero.mp (Nat.le_zero.mp hl)
    subst this
    rfl
  | succ n ih =>
    intro l hl
    cases l with
    | nil => rfl
    | cons a t =>
      simp only [List.length_cons] at hl
      have hlt : (t.filter (fun x => decide (x ≠ a))).length ≤ n :=
        le_trans (List.length_filter_le _ t) (by omega)
      have hswap : (t.filter q).filter (fun x => decide (x ≠ a)) =
          (t.filter (fun x => decide (x ≠ a))).filter q := by
        rw [List.filter_filter, List.filter_filter]
        exact List.filter_congr (fun x _ => Bool.and_comm _ _)
      by_cases hq : q a = true
      · have hl1 : (a :: t).filter q = a :: t.filter q := by
          rw [List.filter_cons, if_pos hq]
        rw [hl1, uniqueList_cons, uniqueList_cons]
        have hr : ((a :: uniqueList (t.filter (fun x => decide (x ≠ a)))).filter q) =
            a :: (uniqueList (t.filter (fun x => decide (x ≠ a)))).filter q := by
          rw [List.filter_cons, if_pos hq]
        rw [hr, hswap, ih _ hlt]
      · have hl1 : (a :: t).filter q = t.filter q := by
          rw [List.filter_cons, if_neg (by simpa using hq)]
        rw [hl1, uniqueList_cons]
        have hr : ((a :: uniqueList (t.filter (fun x => decide (x ≠ a)))).filter q) =
            (uniqueList (t.filter (fun x => decide (x ≠ a)))).filter q := by
          rw [List.filter_cons, if_neg (by simpa using hq)]
        rw [hr, ← ih _ hlt, ← hswap]
        have hself : (t.filter q).filter (fun x => decide (x ≠ a)) = t.filter q := by
          rw [List.filter_eq_self]
          intro x hx
          rcases List.mem_filter.1 hx with ⟨_, hqx⟩
          have : x ≠ a := fun hxa => by rw [hxa] at hqx; exact hq hqx
          simpa using this
        rw [hself]

/-- Splitting a sum over a duplicate-free index list at one element. -/
theorem sum_split_of_nodup {β : Type} [DecidableEq β] (g : β → ℚ) (b : β) :
    ∀ {l : List β}, l.Nodup →
      (l.map g).sum = (if b ∈ l then g b else 0) +
        ((l.filter (fun x => decide (x ≠ b))).map g).sum := by
  intro l
  induction l with
  | nil => simp
  | cons c t ih =>
    intro hnd
    rcases List.nodup_cons.1 hnd with ⟨hct, ht⟩
    by_cases hb : b = c
    · subst hb
      have h1 : (b :: t).filter (fun x => decide (x ≠ b)) =
          t.filter (fun x => decide (x ≠ b)) := by
        rw [List.filter_cons, if_neg (by simp)]
      have h2 : t.filter (fun x => decide (x ≠ b)) = t := by
        rw [List.filter_eq_self]
        intro x hx
        have : x ≠ b := fun hxb => hct (hxb ▸ hx)
        simpa using this
      rw [h1, h2, if_pos (List.mem_cons_self b t)]
      simp
    · have h1 : (c :: t).filter (fun x => decide (x ≠ b)) =
          c :: t.filter (fun x => decide (x ≠ b)) := by
        rw [List.filter_cons, if_pos (by simpa using Ne.symm hb)]
      rw [h1]
      simp only [List.map_cons, List.sum_cons, List.mem_cons, hb, false_or]
      rw [ih ht]
      ring

/-- Rows whose key is absent from the key list contribute an empty fiber. -/
theorem filter_key_eq_nil {α β : Type} [DecidableEq β] (key : α → β)
    {l : List α} {b : β} (hb : b ∉ l.map key) :
    l.filter (fun x => decide (key x = b)) = [] := by
  rw [List.filter_eq_nil_iff]
  intro x hx
  simp only [decide_eq_true_eq]
  intro hxb
  exact hb (List.mem_map.2 ⟨x, hx, hxb⟩)

/-- Fiberwise decomposition of a list sum: the total equals the sum, over the
distinct keys present, of the per-key fiber sums. -/
theorem sum_partition {α β : Type} [DecidableEq β] (key : α → β) (f : α → ℚ) :
    ∀ (l : List α),
      (l.map f).sum = ((uniqueList (l.map key)).map
        (fun m => ((l.filter (fun x => decide (key x = m))).map f).sum)).sum := by
  intro l
  induction l with
  | nil => rfl
  | cons a t ih =>
    have hmapcons : (a :: t).map key = key a :: t.map key := rfl
    rw [hmapcons, uniqueList_cons, uniqueList_filter]
    set Ut := uniqueList (t.map key) with hUt
    set G : β → ℚ := fun m => (((a :: t).filter (fun x => decide (key x = m))).map f).sum with hG
    set Gt : β → ℚ := fun m => ((t.filter (fun x => decide (key x = m))).map f).sum with hGt
    have hGa : G (key a) = f a + Gt (key a) := by
      simp only [hG, hGt, List.filter_cons, decide_eq_true_eq, if_pos rfl]
      simp
    have hcongr : (Ut.filter (fun x => decide (x ≠ key a))).map G =
        (Ut.filter (fun x => decide (x ≠ key a))).map Gt := by
      refine List.map_congr_left (fun m hm => ?_)
      rcases List.mem_filter.1 hm with ⟨_, hmne⟩
      have hne : key a ≠ m := by
        simp only [decide_eq_true_eq] at hmne
        exact fun h => hmne h.symm
      simp only [hG, hGt, List.filter_cons, decide_eq_true_eq, if_neg hne]
    have hsplit := sum_split_of_nodup Gt (key a) (nodup_uniqueList (t.map key))
    have hzero : key a ∉ Ut → Gt (key a) = 0 := by
      intro hnot
      have : key a ∉ t.map key := fun h => hnot ((mem_uniqueList _ _).2 h)
      simp only [hGt, filter_key_eq_nil key this]
      rfl
    simp only [List.map_cons, List.sum_cons]
    rw [hcongr, hGa, ih]
    rw [hsplit]
    by_cases hmem : key a ∈ Ut
    · rw [if_pos hmem]; ring
    · rw [if_neg hmem, hzero hmem]; ring

/-- C8: with no category restriction, the total over all months equals the
sum of the per-month totals over every distinct month present in the table
(the month-set partition property of `update_main_dashboard`'s totals). -/
theorem totals_partition (tbl : List ExpenseRecord) :
    totalExpenses tbl [] [] =
      ((distinctMonths tbl).map (fun m => totalExpenses tbl [m] [])).sum := by
  have h1 : totalExpenses tbl [] [] = (tbl.map (·.amount)).sum := by
    simp [totalExpenses, filterExpenses]
  have h2 : ∀ m, totalExpenses tbl [m] [] =
      ((tbl.filter (fun r => decide (r.month = m))).map (·.amount)).sum := by
    intro m
    simp only [totalExpenses, filterExpenses, List.isEmpty_cons, List.isEmpty_nil,
      if_false, if_true, Bool.false_eq_true]
    congr 1
    refine congrArg _ (List.filter_congr (fun r _ => ?_))
    simp [List.contains_cons]
  rw [h1, sum_partition ExpenseRecord.month (·.amount) tbl]
  unfold distinctMonths
  exact congrArg List.sum (List.map_congr_left (fun m _ => (h2 m).symm))

/-- C4: the per-cell policy for unparsable numeric cells, quantified over the
cell contents.  Ledger and Installment Parsers *drop* a row whose amount cell
fails to parse (and never zero-fill: a parsable cell's value is carried
through exactly); the Statement Parser *defaults* an unparsable debit cell to
zero and keeps the row when the credit is non-zero (and drops the row through
the non-zero filter, not through parsing, when both cells are unparsable). -/
theorem unparsable_cell_policy (catCell amtCell monthCell dCell cCell : String) :
    (strTrim catCell ≠ "" → parseAmount amtCell = none →
      (process_icic_salary_data [["Expenses Category", "Amount Spent in Jan"],
        [catCell, amtCell]]).1 = []) ∧
    (∀ q, strTrim catCell ≠ "" → parseAmount amtCell = some q →
      (process_icic_salary_data [["Expenses Category", "Amount Spent in Jan"],
        [catCell, amtCell]]).1 =
        [{ category := strTrim catCell, amount := q, month := "Jan" }]) ∧
    (strTrim monthCell ≠ "" → parseAmount amtCell = none →
      (process_investments_data [["LIC", "AMOUNT INVESTED"],
        [monthCell, amtCell]]).1 = []) ∧
    (∀ q, strTrim monthCell ≠ "" → parseAmount amtCell = some q →
      (process_investments_data [["LIC", "AMOUNT INVESTED"],
        [monthCell, amtCell]]).1 =
        [{ category := "LIC", month := strTrim monthCell, amount := q }]) ∧
    (∀ q, q ≠ 0 → parseAmount dCell = none → parseAmount cCell = some q →
      (process_canara_data [[], [], [], [],
        [monthCell, "desc", catCell, dCell, cCell]]).1 =
        [{ month := strTrim monthCell, description := "desc",
           category := strTrim catCell, debit := 0, credit := q }]) ∧
    (parseAmount dCell = none → parseAmount cCell = none →
      (process_canara_data [[], [], [], [],
        [monthCell, "desc", catCell, dCell, cCell]]).1 = []) := by
  have hL1 : gridEmptyB [["Expenses Category", "Amount Spent in Jan"],
      [catCell, amtCell]] = false := rfl
  have hL2 : findHeaderAux [["Expenses Category", "Amount Spent in Jan"],
      [catCell, amtCell]] 0 = some 0 := rfl
  have hL3 : make_unique_column_names ["Expenses Category", "Amount Spent in Jan"] =
      ["Expenses Category", "Amount Spent in Jan"] := rfl
  have hL4 : icicPairs ["Expenses Category", "Amount Spent in Jan"] = [(0, 1)] := rfl
  have hL5 : cleanMonthLabel "Amount Spent in Jan" = "Jan" := rfl
  have hI1 : gridEmptyB [["LIC", "AMOUNT INVESTED"], [monthCell, amtCell]] = false := rfl
  have hI2 : invPairs ["LIC", "AMOUNT INVESTED"] = [("LIC", 0)] := rfl
  have hI3 : strTrim "LIC" = "LIC" := rfl
  have hC1 : gridEmptyB [[], [], [], [], [monthCell, "desc", catCell, dCell, cCell]] =
      false := rfl
  refine ⟨fun hcat hp => ?_, fun q hcat hp => ?_, fun hm hp => ?_,
    fun q hm hp => ?_, fun q hq hd hc => ?_, fun hd hc => ?_⟩
  · simp [process_icic_salary_data, hL1, hL2, hL3, hL4, hL5, icicBlock, padRow,
      numCols, Function.comp, List.filter_cons, hcat, hp]
  · simp [process_icic_salary_data, hL1, hL2, hL3, hL4, hL5, icicBlock, padRow,
      numCols, Function.comp, List.filter_cons, hcat, hp]
  · simp [process_investments_data, invFrames, hI1, hI2, hI3, padRow, numCols, Function.comp,
      List.filter_cons, hm, hp]
  · simp [process_investments_data, invFrames, hI1, hI2, hI3, padRow, numCols, Function.comp,
      List.filter_cons, hm, hp]
  · simp [process_canara_data, hC1, List.filter_cons, hd, hc, hq]
  · simp [process_canara_data, hC1, List.filter_cons, hd, hc]

/-- Evaluation of the numeric-cell pipeline on the spec's comma example:
`"1,234.50"` parses to 1234.50. -/
theorem parseAmount_comma : parseAmount "1,234.50" = some (2469 / 2) := by
  have h2 : parseAmount "1,234.50" =
      some ((digitsVal ['1', '2', '3', '4'] : ℚ) +
        (digitsVal ['5', '0'] : ℚ) / 10 ^ 2) := rfl
  have h3 : digitsVal ['1', '2', '3', '4'] = 1234 := by decide
  have h4 : digitsVal ['5', '0'] = 50 := by decide
  rw [h2, h3, h4]
  norm_num

/-- Evaluation of the numeric-cell pipeline on `"100"`. -/
theorem parseAmount_100 : parseAmount "100" = some 100 := by
  have h2 : parseAmount "100" =
      some ((digitsVal ['1', '0', '0'] : ℚ) +
        (digitsVal ([] : List Char) : ℚ) / 10 ^ 0) := rfl
  have h3 : digitsVal ['1', '0', '0'] = 100 := by decide
  rw [h2, h3]
  norm_num [digitsVal]

/-- Witness for C4 at concrete cells: `"abc"` is dropped by the ledger and
installment parsers, `"1,234.50"` parses to 1234.50, the statement parser
zero-fills the unparsable debit `"x"` next to credit `"100"`, and a row with
two unparsable cells falls to the non-zero filter. -/
theorem unparsable_cell_policy_witness :
    (process_icic_salary_data [["Expenses Category", "Amount Spent in Jan"],
      ["Food", "abc"]]).1 = [] ∧
    (process_icic_salary_data [["Expenses Category", "Amount Spent in Jan"],
      ["Food", "1,234.50"]]).1 =
      [{ category := strTrim "Food", amount := 2469 / 2, month := "Jan" }] ∧
    (process_investments_data [["LIC", "AMOUNT INVESTED"],
      ["Jan-24", "abc"]]).1 = [] ∧
    (process_canara_data [[], [], [], [], ["Jan", "desc", "Food", "x", "100"]]).1 =
      [{ month := strTrim "Jan", description := "desc",
         category := strTrim "Food", debit := 0, credit := 100 }] ∧
    (process_canara_data [[], [], [], [], ["Jan", "desc", "Food", "x", "y"]]).1 = [] :=
  ⟨(unparsable_cell_policy "Food" "abc" "Jan-24" "x" "100").1
      (by decide) (by decide),
   (unparsable_cell_policy "Food" "1,234.50" "Jan-24" "x" "100").2.1 (2469 / 2)
      (by decide) parseAmount_comma,
   (unparsable_cell_policy "Food" "abc" "Jan-24" "x" "100").2.2.1
      (by decide) (by decide),
   (unparsable_cell_policy "Food" "abc" "Jan" "x" "100").2.2.2.2.1 100
      (by norm_num) (by decide) parseAmount_100,
   (unparsable_cell_policy "Food" "abc" "Jan" "x" "y").2.2.2.2.2
      (by decide) (by decide)⟩

/-- The digit fuel is irrelevant once it covers the number. -/
theorem natDigitsFuel_irrel :
    ∀ (fuel fuel' n : Nat), n ≤ fuel → n ≤ fuel' →
      natDigitsFuel fuel n = natDigitsFuel fuel' n := by
  intro fuel
  induction fuel with
  | zero =>
    intro fuel' n hn _
    obtain rfl : n = 0 := Nat.le_zero.mp hn
    cases fuel' <;> simp [natDigitsFuel]
  | succ fuel ih =>
    intro fuel' n hn hn'
    cases fuel' with
    | zero =>
      obtain rfl : n = 0 := Nat.le_zero.mp hn'
      simp [natDigitsFuel]
    | succ fuel' =>
      by_cases h : n < 10
      · simp [natDigitsFuel, h]
      · have hd : n / 10 < n := Nat.div_lt_self (by omega) (by omega)
        simp only [natDigitsFuel, if_neg h]
        exact congrArg (· ++ [digitChar10 (n % 10)])
          (ih fuel' (n / 10) (by omega) (by omega))

/-- A digit character decodes back to its digit. -/
theorem digitVal_digitChar10 {n : Nat} (h : n < 10) :
    (digitChar10 n).toNat - 48 = n := by
  interval_cases n <;> rfl

/-- Decoding the digits of `n` recovers `n`. -/
theorem digitsVal_natDigitsFuel :
    ∀ (fuel n : Nat), n ≤ fuel → digitsVal (natDigitsFuel fuel n) = n := by
  intro fuel
  induction fuel with
  | zero =>
    intro n hn
    obtain rfl : n = 0 := Nat.le_zero.mp hn
    rfl
  | succ fuel ih =>
    intro n hn
    by_cases h : n < 10
    · have hstep : natDigitsFuel (fuel + 1) n = [digitChar10 n] := by
        simp [natDigitsFuel, h]
      rw [hstep]
      show digitValAux 0 (digitChar10 n) = n
      unfold digitValAux
      rw [digitVal_digitChar10 h]
      omega
    · have hstep : natDigitsFuel (fuel + 1) n =
          natDigitsFuel fuel (n / 10) ++ [digitChar10 (n % 10)] := by
        simp [natDigitsFuel, h]
      have hd : n / 10 < n := Nat.div_lt_self (by omega) (by omega)
      rw [hstep]
      unfold digitsVal
      rw [List.foldl_append]
      have hrec : List.foldl digitValAux 0 (natDigitsFuel fuel (n / 10)) = n / 10 :=
        ih (n / 10) (by omega)
      rw [hrec]
      show digitValAux (n / 10) (digitChar10 (n % 10)) = n
      unfold digitValAux
      rw [digitVal_digitChar10 (Nat.mod_lt _ (by omega))]
      omega

/-- Decoding `natDigits` recovers the number. -/
theorem digitsVal_natDigits (n : Nat) : digitsVal (natDigits n) = n :=
  digitsVal_natDigitsFuel n n le_rfl

/-- The decimal rendering of naturals is injective. -/
theorem natStr_inj {a b : Nat} (h : natStr a = natStr b) : a = b := by
  have hdata : natDigits a = natDigits b := congrArg String.data h
  have := congrArg digitsVal hdata
  rwa [digitsVal_natDigits, digitsVal_natDigits] at this

/-- `natDigits` is never empty. -/
theorem natDigits_ne_nil (n : Nat) : natDigits n ≠ [] := by
  unfold natDigits
  cases n with
  | zero => simp [natDigitsFuel]
  | succ m =>
    unfold natDigitsFuel
    split <;> simp

/-- A suffixed candidate never equals the bare original (it is longer). -/
theorem ne_suffixed (original : String) (c : Nat) :
    original ≠ original ++ "_" ++ natStr c := by
  intro h
  have hlen := congrArg (fun s : String => s.data.length) h
  simp only [String.data_append, List.length_append] at hlen
  have hu : ("_" : String).data.length = 1 := rfl
  have hpos : 0 < (natStr c).data.length :=
    List.length_pos.2 (natDigits_ne_nil c)
  omega

/-- Distinct counters yield distinct suffixed candidates. -/
theorem suffixed_inj (original : String) {c c' : Nat}
    (h : original ++ "_" ++ natStr c = original ++ "_" ++ natStr c') : c = c' := by
  have hd := congrArg String.data h
  simp only [String.data_append, List.append_assoc] at hd
  have h2 := List.append_cancel_left hd
  have h3 := List.append_cancel_left h2
  have := congrArg digitsVal h3
  rwa [show (natStr c).data = natDigits c from rfl,
    show (natStr c').data = natDigits c' from rfl,
    digitsVal_natDigits, digitsVal_natDigits] at this

/-- Closed form of the candidate list. -/
theorem candList_eq (original : String) :
    ∀ (fuel count : Nat) (current : String),
      candList original count current fuel =
        current :: (List.range' (count + 1) fuel).map
          (fun k => original ++ "_" ++ natStr k) := by
  intro fuel
  induction fuel with
  | zero => intro count current; simp [candList]
  | succ fuel ih =>
    intro count current
    show current :: candList original (count + 1)
      (original ++ "_" ++ natStr (count + 1)) fuel = _
    rw [ih, List.range'_succ, List.map_cons]

/-- The candidates starting from the bare original are pairwise distinct. -/
theorem candList_nodup (original : String) (count fuel : Nat) :
    (candList original count original fuel).Nodup := by
  rw [candList_eq]
  refine List.nodup_cons.2 ⟨?_, ?_⟩
  · intro hmem
    rcases List.mem_map.1 hmem with ⟨k, _, hk⟩
    exact ne_suffixed original k hk.symm
  · refine List.Nodup.map ?_ (List.nodup_range' _ _)
    intro i j hij
    exact suffixed_inj original hij

/-- The candidate list has `fuel + 1` entries. -/
theorem candList_length (original : String) (count fuel : Nat) (current : String) :
    (candList original count current fuel).length = fuel + 1 := by
  rw [candList_eq]
  simp

/-- Pigeonhole: a duplicate-free list longer than `uniques` has an element
outside `uniques`. -/
theorem exists_not_mem_of_lt_length {cand uniques : List String}
    (hnd : cand.Nodup) (hlen : uniques.length < cand.length) :
    ∃ x ∈ cand, x ∉ uniques := by
  by_contra h
  push_neg at h
  have h1 : cand.toFinset.card = cand.length := List.toFinset_card_of_nodup hnd
  have h2 : cand.toFinset ⊆ uniques.toFinset := by
    intro x hx
    rw [List.mem_toFinset] at hx ⊢
    exact h x hx
  have h3 := Finset.card_le_card h2
  have h4 : uniques.toFinset.card ≤ uniques.length := uniques.toFinset_card_le
  omega

/-- If some candidate is fresh, the loop's result is fresh. -/
theorem searchLoop_fresh (original : String) (uniques : List String) :
    ∀ (fuel count : Nat) (current : String),
      (∃ x ∈ candList original count current fuel, x ∉ uniques) →
      (searchLoop original uniques fuel count current).1 ∉ uniques := by
  intro fuel
  induction fuel with
  | zero =>
    intro count current h
    rcases h with ⟨x, hx, hnot⟩
    have : x = current := by simpa [candList] using hx
    subst this
    simpa [searchLoop] using hnot
  | succ fuel ih =>
    intro count current h
    by_cases hc : current ∈ uniques
    · have hstep : searchLoop original uniques (fuel + 1) count current =
          searchLoop original uniques fuel (count + 1)
            (original ++ "_" ++ natStr (count + 1)) := by
        simp [searchLoop, hc]
      rw [hstep]
      apply ih
      rcases h with ⟨x, hx, hnot⟩
      rcases List.mem_cons.1 (by simpa [candList] using hx) with rfl | hx'
      · exact absurd hc hnot
      · exact ⟨x, hx', hnot⟩
    · have hstep : searchLoop original uniques (fuel + 1) count current =
          (current, count) := by
        simp [searchLoop, hc]
      rw [hstep]
      exact hc

/-- Each deduplicator step appends exactly one name, and that name is not yet
in the accumulated list. -/
theorem makeUniqueStep_fresh (st : (String → Nat) × List String) (col : String) :
    ∃ name, (makeUniqueStep st col).2 = st.2 ++ [name] ∧ name ∉ st.2 := by
  refine ⟨(searchLoop (strTrim col) st.2 (st.2.length + 1)
      (st.1 (strTrim col)) (strTrim col)).1, rfl, ?_⟩
  apply searchLoop_fresh
  apply exists_not_mem_of_lt_length (candList_nodup _ _ _)
  rw [candList_length]
  omega

/-- The fold adds one output name per input column. -/
theorem makeUnique_foldl_length :
    ∀ (cols : List String) (st : (String → Nat) × List String),
      ((cols.foldl makeUniqueStep st).2).length = st.2.length + cols.length := by
  intro cols
  induction cols with
  | nil => intro st; simp
  | cons c t ih =>
    intro st
    rw [List.foldl_cons, ih]
    obtain ⟨name, heq, _⟩ := makeUniqueStep_fresh st c
    rw [heq]
    simp
    omega

/-- The fold preserves freedom from duplicates. -/
theorem makeUnique_foldl_nodup :
    ∀ (cols : List String) (st : (String → Nat) × List String),
      st.2.Nodup → ((cols.foldl makeUniqueStep st).2).Nodup := by
  intro cols
  induction cols with
  | nil => intro st h; exact h
  | cons c t ih =>
    intro st h
    rw [List.foldl_cons]
    apply ih
    obtain ⟨name, heq, hfresh⟩ := makeUniqueStep_fresh st c
    rw [heq]
    rw [List.nodup_append]
    exact ⟨h, List.nodup_singleton name, by
      intro a ha hb
      rw [List.mem_singleton] at hb
      exact hfresh (hb ▸ ha)⟩

/-- On duplicate-free trimmed input the fold just appends the trimmed names. -/
theorem makeUnique_foldl_of_nodup :
    ∀ (cols : List String) (st : (String → Nat) × List String),
      (st.2 ++ cols.map strTrim).Nodup →
      (cols.foldl makeUniqueStep st).2 = st.2 ++ cols.map strTrim := by
  intro cols
  induction cols with
  | nil => intro st h; simp
  | cons c t ih =>
    intro st h
    have hmap : (c :: t).map strTrim = strTrim c :: t.map strTrim := rfl
    rw [hmap] at h
    have hdis := (List.nodup_append.1 h).2.2
    have hnotin : strTrim c ∉ st.2 := by
      intro hmem
      exact hdis hmem (List.mem_cons_self _ _)
    have hloop : searchLoop (strTrim c) st.2 (st.2.length + 1)
        (st.1 (strTrim c)) (strTrim c) = (strTrim c, st.1 (strTrim c)) := by
      simp [searchLoop, hnotin]
    have hstep : (makeUniqueStep st c).2 = st.2 ++ [strTrim c] := by
      simp only [makeUniqueStep, hloop]
    rw [List.foldl_cons]
    have hih := ih (makeUniqueStep st c) (by
      rw [hstep, List.append_assoc]
      simpa using h)
    rw [hih, hstep, List.append_assoc]
    rfl

/-- C9: the Column Deduplicator returns one output per input, the outputs are
pairwise distinct, and when the trimmed inputs are already duplicate-free the
output is exactly the trimmed input. -/
theorem make_unique_spec (cols : List String) :
    (make_unique_column_names cols).length = cols.length ∧
    (make_unique_column_names cols).Nodup ∧
    ((cols.map strTrim).Nodup → make_unique_column_names cols = cols.map strTrim) := by
  unfold make_unique_column_names
  refine ⟨?_, ?_, ?_⟩
  · rw [makeUnique_foldl_length]
    simp
  · exact makeUnique_foldl_nodup cols _ (by simp)
  · intro h
    have := makeUnique_foldl_of_nodup cols (fun _ => 0, []) (by simpa using h)
    simpa using this

/-- Witness for C9: trimmed duplicate-free input passes through trimmed;
duplicated input (including a label that already ends in `_1`) still yields
pairwise-distinct outputs of the same length. -/
theorem make_unique_spec_witness :
    make_unique_column_names [" a ", "b"] = ["a", "b"] ∧
    (make_unique_column_names ["a", "a", "a_1"]).Nodup ∧
    (make_unique_column_names ["a", "a", "a_1"]).length = 3 :=
  ⟨((make_unique_spec [" a ", "b"]).2.2 (by decide)).trans (by decide),
   (make_unique_spec ["a", "a", "a_1"]).2.1,
   (make_unique_spec ["a", "a", "a_1"]).1⟩

/-- The head surviving `dropWhile` fails the predicate. -/
theorem dropWhile_head_not (p : Char → Bool) :
    ∀ (l : List Char) c t, l.dropWhile p = c :: t → p c = false := by
  intro l
  induction l with
  | nil => intro c t h; cases h
  | cons a l ih =>
    intro c t h
    by_cases hp : p a = true
    · rw [List.dropWhile_cons, if_pos hp] at h
      exact ih c t h
    · rw [List.dropWhile_cons, if_neg hp] at h
      injection h with h1 _
      subst h1
      simpa using hp

/-- A list whose head fails the predicate is untouched by `dropWhile`. -/
theorem dropWhile_eq_self_of_head (p : Char → Bool) {c : Char} {t : List Char}
    (h : p c = false) : (c :: t).dropWhile p = c :: t := by
  rw [List.dropWhile_cons, if_neg (by simp [h])]

/-- `dropWhile` is idempotent. -/
theorem dropWhile_dropWhile (p : Char → Bool) (l : List Char) :
    (l.dropWhile p).dropWhile p = l.dropWhile p := by
  cases hd : l.dropWhile p with
  | nil => rfl
  | cons c t => exact dropWhile_eq_self_of_head p (dropWhile_head_not p l c t hd)

/-- Stripping both ends is idempotent. -/
theorem trimChars_idem (l : List Char) : trimChars (trimChars l) = trimChars l := by
  unfold trimChars
  set l1 := l.dropWhile isWsChar with hl1
  set r2 := (l1.reverse.dropWhile isWsChar).reverse with hr2
  have hstep2 : r2.reverse.dropWhile isWsChar = r2.reverse := by
    rw [hr2, List.reverse_reverse]
    exact dropWhile_dropWhile _ _
  have hstep1 : r2.dropWhile isWsChar = r2 := by
    cases hr : r2 with
    | nil => rfl
    | cons c t =>
      obtain ⟨u, hu⟩ := List.dropWhile_suffix (l := l1.reverse) (p := isWsChar)
      have hl1eq : r2 ++ u.reverse = l1 := by
        have hrev := congrArg List.reverse hu
        rw [List.reverse_append, List.reverse_reverse] at hrev
        rw [hr2]
        exact hrev
      have hleq : l.dropWhile isWsChar = c :: (t ++ u.reverse) := by
        rw [← hl1, ← hl1eq, hr]
        rfl
      have hc : isWsChar c = false := dropWhile_head_not _ l c _ hleq
      exact dropWhile_eq_self_of_head _ hc
  rw [hstep1, hstep2, List.reverse_reverse]

/-- `str.strip()` is idempotent. -/
theorem strTrim_idem (s : String) : strTrim (strTrim s) = strTrim s := by
  show String.mk (trimChars (trimChars s.data)) = String.mk (trimChars s.data)
  exact congrArg String.mk (trimChars_idem s.data)

/-- Every pair the installment header scan produces carries a label that is
trimmed, non-empty, and not the amount marker. -/
theorem mem_invPairs {header : List String} {cn : String} {i : Nat}
    (h : (cn, i) ∈ invPairs header) :
    cn = strTrim (header.getD i "") ∧ cn ≠ "" ∧
      strUpper cn ≠ "AMOUNT INVESTED" := by
  unfold invPairs at h
  rcases List.mem_filterMap.1 h with ⟨j, _, hfj⟩
  have hfj' : (if strTrim (header.getD j "") ≠ "" ∧
      strUpper (strTrim (header.getD j "")) ≠ "AMOUNT INVESTED" then
        if j + 1 < header.length then
          if strUpper (strTrim (header.getD (j + 1) "")) = "AMOUNT INVESTED" then
            some (strTrim (header.getD j ""), j)
          else none
        else none
      else none) = some (cn, i) := hfj
  split_ifs at hfj' with h1 h2 h3
  all_goals try exact Option.noConfusion hfj'
  injection hfj' with hpair
  have hcn : strTrim (header.getD j "") = cn := congrArg Prod.fst hpair
  have hji : j = i := congrArg Prod.snd hpair
  subst hji
  exact ⟨hcn.symm, hcn ▸ h1.1, hcn ▸ h1.2⟩

/-- C10: every record of the investment table has a category that is
non-empty after trimming and is not case-insensitively equal to
`"AMOUNT INVESTED"` — only a non-empty, non-marker header label starts a
pair, and that trimmed label is copied into every row of its block. -/
theorem investment_category_invariant (g : Grid) :
    ∀ r ∈ (process_investments_data g).1,
      strTrim r.category ≠ "" ∧ strUpper r.category ≠ "AMOUNT INVESTED" := by
  intro r hr
  by_cases h1 : (gridEmptyB g || decide (numCols g < 2)) = true
  · have heq : process_investments_data g = ([],
        some "Raw DataFrame for Investments is empty or has insufficient columns.") := by
      unfold process_investments_data
      rw [if_pos h1]
    rw [heq] at hr
    simp at hr
  · by_cases h2 : (invFrames g).isEmpty = true
    · have heq : process_investments_data g =
          ([], some "No valid investment data found.") := by
        unfold process_investments_data
        rw [if_neg h1, if_pos h2]
      rw [heq] at hr
      simp at hr
    · have hr' : r ∈ ((invFrames g).flatten.filter
          (fun t => decide (strTrim t.monthCell ≠ ""))).filterMap
            (fun t => (parseAmount t.amountCell).map (fun a =>
              ({ category := strTrim t.category, month := strTrim t.monthCell,
                 amount := a } : InvestmentRecord))) := by
        have heq : (process_investments_data g).1 = ((invFrames g).flatten.filter
            (fun t => decide (strTrim t.monthCell ≠ ""))).filterMap
              (fun t => (parseAmount t.amountCell).map (fun a =>
                ({ category := strTrim t.category, month := strTrim t.monthCell,
                   amount := a } : InvestmentRecord))) := by
          unfold process_investments_data
          rw [if_neg h1, if_neg h2]
        rwa [heq] at hr
      rcases List.mem_filterMap.1 hr' with ⟨t, ht, hft⟩
      have hcat : r.category = strTrim t.category := by
        rcases Option.map_eq_some'.1 hft with ⟨a, _, hrec⟩
        rw [← hrec]
      rcases List.mem_filter.1 ht with ⟨htmem, _⟩
      rcases List.mem_flatten.1 htmem with ⟨block, hblock, htb⟩
      unfold invFrames at hblock
      rcases List.mem_map.1 hblock with ⟨ci, hci, hbeq⟩
      have htcat : t.category = ci.1 := by
        rw [← hbeq] at htb
        rcases List.mem_map.1 htb with ⟨row, _, hteq⟩
        rw [← hteq]
      obtain ⟨htrim, hne, hupper⟩ := mem_invPairs (by
        have hpair : (ci.1, ci.2) = ci := rfl
        rw [hpair]
        exact hci)
      have hfix : strTrim ci.1 = ci.1 := by
        rw [htrim]
        exact strTrim_idem _
      rw [hcat, htcat, hfix, hfix]
      exact ⟨hne, hupper⟩

/-- Evaluation of the investments parser on the witness grid. -/
theorem gInvW7_eval : (process_investments_data gInvW7).1 =
    [{ category := "LIC", month := "Jan", amount := 7 }] := by
  have h : (process_investments_data gInvW7).1 =
      [{ category := "LIC", month := "Jan",
         amount := ((digitsVal ['7'] : ℚ) +
           (digitsVal ([] : List Char) : ℚ) / 10 ^ 0) }] := rfl
  rw [h]
  have h7 : digitsVal ['7'] = 7 := by decide
  rw [h7]
  norm_num [digitsVal]

/-- Witness for C10: the record parsed from the witness grid satisfies the
category invariant. -/
theorem investment_category_invariant_witness :
    strTrim (InvestmentRecord.mk "LIC" "Jan" 7).category ≠ "" ∧
    strUpper (InvestmentRecord.mk "LIC" "Jan" 7).category ≠ "AMOUNT INVESTED" :=
  investment_category_invariant gInvW7 ⟨"LIC", "Jan", 7⟩
    (by rw [gInvW7_eval]; exact List.mem_singleton.mpr rfl)

end Dashboard
